import Mathlib

/-!
Shallow embedding of the codemapper daemon (codemapper/daemon.py,
codemapper/store.py, codemapper/processor/cache.py, codemapper/scheduler.py)
and verification of the specification claims about it.

Conventions of the embedding:
* Python `dict` becomes an association list that preserves insertion order;
  assignment to an existing key replaces the value in place, a new key is
  appended at the end.
* Python `set[str]` (the in-flight scan marker set) becomes a `List String`
  used as a set: `add` conses a fresh element, `discard` erases it.
* `datetime` timestamps become `Nat` clock values supplied by the caller;
  nothing in the verified claims depends on real time.
* External collaborators (filesystem enumeration, tree-sitter parser,
  Ollama summarizer) are modelled by environment records describing their
  observable outcomes, exactly at the interface boundary the code uses.
-/

/-! ## IncrementalCache (codemapper/processor/cache.py) -/

/-- CacheEntry mirrors the `CacheEntry` TypedDict of cache.py:
`hash` is the content hash string, `timestamp` the last-update time
(a float in Python, modelled as `Nat`; no verified property reads it). -/
structure CacheEntry where
  hash : String
  timestamp : Nat
deriving DecidableEq, Repr

/-- Cache is the in-memory `dict[str, CacheEntry]` of `HashCache`,
as an insertion-ordered association list. -/
abbrev Cache := List (String × CacheEntry)

namespace HashCache

/-- Lookup of a key, as Python `dict.get`. -/
def find? (c : Cache) (symbol_id : String) : Option CacheEntry :=
  match c with
  | [] => none
  | (k, v) :: rest => if k = symbol_id then some v else find? rest symbol_id

/-- HashCache.is_changed (cache.py lines 32-36): true when the id is absent,
otherwise true iff the stored hash differs from the current one. -/
def is_changed (c : Cache) (symbol_id current_hash : String) : Bool :=
  match find? c symbol_id with
  | none => true
  | some entry => entry.hash ≠ current_hash

/-- HashCache.update (cache.py lines 38-39): Python dict assignment —
replace in place when the key exists, append otherwise. -/
def update (c : Cache) (symbol_id code_hash : String) (timestamp : Nat) : Cache :=
  match c with
  | [] => [(symbol_id, ⟨code_hash, timestamp⟩)]
  | (k, v) :: rest =>
      if k = symbol_id then (k, ⟨code_hash, timestamp⟩) :: rest
      else (k, v) :: update rest symbol_id code_hash timestamp

/-! ### Persistence (save / _load)

`save` writes `json.dumps(self._cache)` to the lock file; `_load` reads the
file back with `json.loads`, returning `{}` when the file is missing or the
text does not decode. The JSON layer is embedded explicitly: the persisted
file holds a JSON value, an object of objects. -/

/-- Json is the fragment of JSON that `json.dumps` emits for a
`dict[str, CacheEntry]`: strings, numbers and objects. -/
inductive Json where
  | str (s : String)
  | num (n : Nat)
  | obj (members : List (String × Json))

/-- Encoding of one CacheEntry, as `json.dumps` renders the TypedDict. -/
def encodeEntry (e : CacheEntry) : Json :=
  .obj [("hash", .str e.hash), ("timestamp", .num e.timestamp)]

/-- Decoding of one CacheEntry from its JSON object. -/
def decodeEntry : Json → Option CacheEntry
  | .obj [("hash", .str h), ("timestamp", .num t)] => some ⟨h, t⟩
  | _ => none

/-- Encoding of the whole cache map, preserving insertion order of keys. -/
def encodeCache (c : Cache) : Json :=
  .obj (c.map (fun kv => (kv.1, encodeEntry kv.2)))

/-- Decoding of a cache map; fails on any value that is not a well-formed
entry object, as `json.loads` would produce data the cache cannot use. -/
def decodeMembers : List (String × Json) → Option Cache
  | [] => some []
  | (k, j) :: rest => do
      let e ← decodeEntry j
      let tail ← decodeMembers rest
      pure ((k, e) :: tail)

/-- Decoding of the persisted file content. -/
def decodeCache : Json → Option Cache
  | .obj ms => decodeMembers ms
  | _ => none

/-- HashCache.save (cache.py lines 25-26): the persisted lock file now holds
the JSON rendering of the in-memory map. -/
def save (c : Cache) : Option Json :=
  some (encodeCache c)

/-- HashCache._load (cache.py lines 17-23): a missing file or one whose
content fails to decode yields the empty map. -/
def load (file : Option Json) : Cache :=
  match file with
  | none => []
  | some j => (decodeCache j).getD []

end HashCache

/-! ## Scheduler (codemapper/scheduler.py) -/

/-- Whitespace class of the Python regex `\s` and of `str.split()`. -/
def isSpaceCh (c : Char) : Bool :=
  c = ' ' ∨ c = '\t' ∨ c = '\n' ∨ c = '\r' ∨ c = '\x0b' ∨ c = '\x0c'

/-- Digit class of the Python regex `\d` on ASCII input. -/
def isDigitCh (c : Char) : Bool :=
  '0' ≤ c ∧ c ≤ '9'

/-- Numeric value of a digit run, as `int(match.group(1))`. -/
def digitsVal (ds : List Char) : Nat :=
  ds.foldl (fun acc c => 10 * acc + (c.toNat - 48)) 0

/-- Literal-prefix matcher used for the `every` head of the interval regex:
returns the remaining characters when the prefix matches. -/
def matchLit : List Char → List Char → Option (List Char)
  | [], rest => some rest
  | p :: ps, c :: cs => if c = p then matchLit ps cs else none
  | _ :: _, [] => none

/-- Seconds per interval unit, from the `units` table of `parse_interval`
composed with `timedelta(...).total_seconds()`. -/
def unitSeconds : Char → Option Nat
  | 's' => some 1
  | 'm' => some 60
  | 'h' => some 3600
  | 'd' => some 86400
  | _ => none

/-- Lowercasing applied by `spec.lower()`; the schedule grammar is ASCII. -/
def lowerStr (s : String) : String :=
  String.mk (s.toList.map Char.toLower)

/-- parse_interval (scheduler.py lines 10-16): match
`^every\s+(\d+)\s*(s|m|h|d)$` against the lowercased spec and convert the
resulting timedelta to whole seconds (the only consumer immediately calls
`int(interval.total_seconds())`). `none` models Python `None`. -/
def parse_interval (spec : String) : Option Nat :=
  match matchLit ['e', 'v', 'e', 'r', 'y'] (lowerStr spec).toList with
  | none => none
  | some rest =>
      let ws := rest.takeWhile isSpaceCh
      let r1 := rest.dropWhile isSpaceCh
      if ws.isEmpty then none
      else
        let ds := r1.takeWhile isDigitCh
        let r2 := r1.dropWhile isDigitCh
        if ds.isEmpty then none
        else
          match r2.dropWhile isSpaceCh with
          | [u] => (unitSeconds u).map (fun k => digitsVal ds * k)
          | _ => none

/-- Accumulating splitter behind `splitWs`; `acc` holds the reversed
characters of the word currently being read. -/
def splitWsAux : List Char → List Char → List (List Char)
  | [], acc => if acc.isEmpty then [] else [acc.reverse]
  | c :: rest, acc =>
      if isSpaceCh c then
        if acc.isEmpty then splitWsAux rest []
        else acc.reverse :: splitWsAux rest []
      else splitWsAux rest (c :: acc)

/-- Splitter of `str.split()` with no argument: runs of whitespace separate
the words, leading and trailing whitespace produce no empty words. -/
def splitWs (cs : List Char) : List (List Char) :=
  splitWsAux cs []

/-- is_cron (scheduler.py lines 19-21): five whitespace-separated fields and
the raw spec does not start with `every` (checked on the raw, unlowered
spec, as `spec.startswith` is). -/
def is_cron (spec : String) : Bool :=
  (splitWs spec.toList).length = 5 ∧ ¬ (matchLit ['e', 'v', 'e', 'r', 'y'] spec.toList).isSome

/-- Trigger models the APScheduler trigger object installed for a job:
either a cron trigger built from the five-field expression or an interval
trigger carrying whole seconds. -/
inductive Trigger where
  | cron (spec : String)
  | interval (seconds : Nat)
deriving DecidableEq, Repr

/-- SchedState is the observable state of `Scheduler`: the `_jobs`
id-to-schedule map and the triggers installed in the underlying
APScheduler, both keyed by job id. -/
structure SchedState where
  jobs : List (String × String)
  triggers : List (String × Trigger)
deriving DecidableEq, Repr

/-- Upsert of an association list keyed by the first component, used for
`replace_existing=True` installation and for the `_jobs` dict. -/
def setAssoc {α : Type} (l : List (String × α)) (k : String) (v : α) : List (String × α) :=
  match l with
  | [] => [(k, v)]
  | (k0, v0) :: rest =>
      if k0 = k then (k0, v) :: rest else (k0, v0) :: setAssoc rest k v

/-- Scheduler.add_job (scheduler.py lines 37-58): cron specs install a cron
trigger (the external `CronTrigger.from_crontab` is modelled as accepting
the spec; no verified claim exercises the cron path); otherwise a failed
interval parse returns `false` with the scheduler untouched, and a
successful parse installs an interval trigger and records the schedule. -/
def add_job (s : SchedState) (job_id schedule : String) : Bool × SchedState :=
  if is_cron schedule then
    (true, ⟨setAssoc s.jobs job_id schedule, setAssoc s.triggers job_id (.cron schedule)⟩)
  else
    match parse_interval schedule with
    | none => (false, s)
    | some secs =>
        (true, ⟨setAssoc s.jobs job_id schedule, setAssoc s.triggers job_id (.interval secs)⟩)


/-! ## PersistentStore (codemapper/store.py)

The SQLite tables become lists of rows. `id INTEGER PRIMARY KEY
AUTOINCREMENT` on codebases becomes an explicit monotone counter `nextId`:
SQLite with AUTOINCREMENT always hands out a value larger than any ever
used, and `INSERT OR REPLACE` with the id column omitted deletes the row
conflicting on the UNIQUE name and inserts a fresh row under a fresh id. -/

/-- JobStatus mirrors the StrEnum of store.py. -/
inductive JobStatus where
  | pending
  | running
  | completed
  | failed
deriving DecidableEq, Repr

/-- CodebaseRow is one row of the codebases table. -/
structure CodebaseRow where
  id : Nat
  name : String
  path : String
  schedule : String
  created_at : Nat
  last_run : Option Nat
deriving DecidableEq, Repr

/-- JobRow is one row of the jobs table. -/
structure JobRow where
  id : String
  codebase_id : Nat
  codebase_name : String
  status : JobStatus
  started_at : Nat
  finished_at : Option Nat
  symbols_processed : Nat
  files_processed : Nat
  error : Option String
deriving DecidableEq, Repr

/-- LogRow is one row of the logs table. -/
structure LogRow where
  job_id : String
  timestamp : Nat
  message : String
  level : String
deriving DecidableEq, Repr

/-- StoreState is the whole database. -/
structure StoreState where
  codebases : List CodebaseRow
  nextId : Nat
  jobs : List JobRow
  logs : List LogRow
deriving DecidableEq, Repr

namespace Store

/-- Store.add_codebase (store.py lines 88-101): `INSERT OR REPLACE` keyed on
the UNIQUE name — any row with this name is deleted, a fresh row is
inserted with a fresh autoincrement id, the supplied path and schedule, a
fresh creation time, and no last_run (the column is absent from the insert
list, so it becomes NULL). Returns the new state and the row dataclass
built from `cursor.lastrowid`. -/
def add_codebase (st : StoreState) (name path schedule : String) (now : Nat) :
    StoreState × CodebaseRow :=
  let row : CodebaseRow := ⟨st.nextId, name, path, schedule, now, none⟩
  ({ st with
      codebases := (st.codebases.filter (fun c => c.name ≠ name)) ++ [row]
      nextId := st.nextId + 1 },
   row)

/-- Store.get_codebases (store.py lines 103-108): `SELECT * FROM codebases
ORDER BY name`. -/
def get_codebases (st : StoreState) : List CodebaseRow :=
  List.insertionSort (fun a b => a.name ≤ b.name) st.codebases

/-- Store.create_job (store.py lines 116-130): insert a job row with status
running, the given start time and zeroed counters. -/
def create_job (st : StoreState) (job_id : String) (codebase_id : Nat)
    (codebase_name : String) (now : Nat) : StoreState :=
  { st with jobs := st.jobs ++ [⟨job_id, codebase_id, codebase_name, .running, now, none, 0, 0, none⟩] }

/-- Store.update_job (store.py lines 132-143): set status, counters and
error on the rows matching the job id, with finished_at set exactly when
the status is terminal; also stamp last_run on the codebase the job
references. -/
def update_job (st : StoreState) (job_id : String) (status : JobStatus)
    (symbols files : Nat) (error : Option String) (now : Nat) : StoreState :=
  let finished := if status = .completed ∨ status = .failed then some now else none
  { st with
      jobs := st.jobs.map (fun j =>
        if j.id = job_id then
          { j with status := status, finished_at := finished,
                   symbols_processed := symbols, files_processed := files,
                   error := error }
        else j)
      codebases := st.codebases.map (fun c =>
        if (st.jobs.find? (fun j => j.id = job_id)).any (fun j => j.codebase_id = c.id) then
          { c with last_run := some now }
        else c) }

/-- Store.add_log (store.py lines 164-170): append one log row. -/
def add_log (st : StoreState) (job_id message level : String) (now : Nat) : StoreState :=
  { st with logs := st.logs ++ [⟨job_id, now, message, level⟩] }

end Store

/-! ## ScanCoordinator (MapperEngine.run_scan, daemon.py lines 22-115)

The engine holds the in-flight name set `_running_scans`. One invocation of
`run_scan` is embedded as a pure function of the engine state, the store
state and an environment describing every external outcome the code
observes:

* `jobId` — the `uuid4` prefix allocated for the Job row;
* `now` — the wall clock (all timestamps of one run collapse to it);
* `ollamaAvailable` — result of `self._ollama.is_available()`;
* `logStartFails` — when true, the store call logging `Starting scan` at
  line 50 raises (the representative unhandled exception escaping the try
  body into the outer `except` handler of lines 108-110);
* `initCache` — content of the lock file loaded by `HashCache(path)`;
* `files` — the discovery result: the files of `path.rglob` that pass the
  extension, gitignore and language filters of lines 57-67, in order,
  each with the outcomes of its own processing.

Per file, `FailPoint` says where (if anywhere) an exception is raised
inside the per-file try of lines 72-101: `atRead` at `read_text` (line 77,
before the parser runs), `atWrite` at `shadow.write_map` (line 97, only
reachable when the file produced summaries), `atSave` at `cache.save`
(line 100, after the files counter was already incremented at line 99). -/

/-- Outcome of `self._ollama.summarize_async(symbol)` for one symbol. -/
inductive SymOutcome where
  | ok (text : String)
  | fail (msg : String)
deriving DecidableEq, Repr

/-- SymSpec describes one symbol the parser extracts from a file: its name,
the content hash `HashCache.compute_hash(symbol.code)`, and how the
summarizer call for it would end. -/
structure SymSpec where
  name : String
  hash : String
  outcome : SymOutcome
deriving DecidableEq, Repr

/-- FailPoint locates the exception (if any) raised while processing one
file. -/
inductive FailPoint where
  | noFail
  | atRead
  | atWrite
  | atSave
deriving DecidableEq, Repr

/-- FileSpec describes one discovered source file. -/
structure FileSpec where
  fname : String
  symbols : List SymSpec
  failPoint : FailPoint
  failMsg : String
deriving DecidableEq, Repr

/-- ScanEnv gathers every external outcome one `run_scan` invocation
observes. -/
structure ScanEnv where
  jobId : String
  now : Nat
  ollamaAvailable : Bool
  logStartFails : Bool
  crashMsg : String
  initCache : Cache
  files : List FileSpec
deriving DecidableEq, Repr

/-- EngineState is the mutable state of MapperEngine: the `_running_scans`
set of codebase names with a scan in flight. -/
structure EngineState where
  running_scans : List String
deriving DecidableEq, Repr

/-- MapperEngine.is_scanning (daemon.py lines 29-30). -/
def is_scanning (es : EngineState) (name : String) : Bool :=
  name ∈ es.running_scans

/-- SymLoopOut is the result of the symbol loop of daemon.py lines 81-93
over one file: the evolved cache, the number of symbols summarized
successfully (each increments `symbols_processed`), whether
`file_summaries` ended nonempty, and the log rows written. -/
structure SymLoopOut where
  cache : Cache
  okCount : Nat
  anyOk : Bool
  logs : List LogRow
deriving DecidableEq, Repr

/-- Symbol loop of daemon.py lines 81-93: unchanged symbols are skipped;
changed ones are logged, then summarized — success appends a summary
fragment, updates the cache and increments the counter, failure logs an
LLM error at error level and continues. -/
def processSymbols (jobId fname : String) (now : Nat) (cache : Cache) :
    List SymSpec → SymLoopOut
  | [] => ⟨cache, 0, false, []⟩
  | s :: rest =>
      let sid := fname ++ "::" ++ s.name
      if HashCache.is_changed cache sid s.hash then
        let logP : LogRow := ⟨jobId, now, "Processing " ++ s.name ++ " in " ++ fname, "info"⟩
        match s.outcome with
        | .ok _text =>
            let out := processSymbols jobId fname now (HashCache.update cache sid s.hash now) rest
            ⟨out.cache, out.okCount + 1, true, logP :: out.logs⟩
        | .fail m =>
            let logE : LogRow := ⟨jobId, now, "LLM error for " ++ s.name ++ ": " ++ m, "error"⟩
            let out := processSymbols jobId fname now cache rest
            ⟨out.cache, out.okCount, out.anyOk, logP :: logE :: out.logs⟩
      else
        processSymbols jobId fname now cache rest

/-- FileOut is the net effect of the per-file try block of daemon.py lines
71-103 for one file. -/
structure FileOut where
  cache : Cache
  syms : Nat
  files : Nat
  parserCalls : Nat
  logs : List LogRow
deriving DecidableEq, Repr

/-- Per-file processing (daemon.py lines 71-103). `atRead` raises before
the parser is invoked, so the file contributes nothing but an error log.
Otherwise the symbol loop runs; an exception at `write_map` (possible only
when summaries exist) is caught by the per-file handler after the symbol
work already took effect, so the symbol counter and cache updates survive
but the file counter does not increment; an exception at `cache.save`
is raised after `files_processed += 1`, so the increment survives. The
language re-check at line 73 repeats the deterministic detection already
passed during discovery and cannot skip a discovered file. -/
def processFile (jobId : String) (now : Nat) (cache : Cache) (f : FileSpec) : FileOut :=
  if f.failPoint = .atRead then
    ⟨cache, 0, 0, 0, [⟨jobId, now, "Error processing " ++ f.fname ++ ": " ++ f.failMsg, "error"⟩]⟩
  else
    let out := processSymbols jobId f.fname now cache f.symbols
    if f.failPoint = .atWrite ∧ out.anyOk then
      ⟨out.cache, out.okCount, 0, 1,
        out.logs ++ [⟨jobId, now, "Error processing " ++ f.fname ++ ": " ++ f.failMsg, "error"⟩]⟩
    else if f.failPoint = .atSave then
      ⟨out.cache, out.okCount, 1, 1,
        out.logs ++ [⟨jobId, now, "Error processing " ++ f.fname ++ ": " ++ f.failMsg, "error"⟩]⟩
    else
      ⟨out.cache, out.okCount, 1, 1, out.logs⟩

/-- File loop of daemon.py lines 71-103, threading the cache and summing
the counters; every file is visited regardless of earlier failures. -/
def processFiles (jobId : String) (now : Nat) (cache : Cache) : List FileSpec → FileOut
  | [] => ⟨cache, 0, 0, 0, []⟩
  | f :: rest =>
      let o1 := processFile jobId now cache f
      let o2 := processFiles jobId now o1.cache rest
      ⟨o2.cache, o1.syms + o2.syms, o1.files + o2.files,
        o1.parserCalls + o2.parserCalls, o1.logs ++ o2.logs⟩

/-- RunResult is everything observable about one `run_scan` invocation:
the engine state and store state after it returns, the returned pair
`(files_processed, symbols_processed)`, and two ghost observations tied to
specific source lines — whether the discovery loop of lines 57-67 ran, and
how many times `extract_symbols` (line 78) was invoked. -/
structure RunResult where
  engine : EngineState
  store : StoreState
  files : Nat
  symbols : Nat
  enumerated : Bool
  parserCalls : Nat
deriving DecidableEq, Repr

/-- MapperEngine.run_scan (daemon.py lines 32-115). Admission: a name
already in flight returns `(0, 0)` at once, touching nothing. Otherwise
the name is marked, the Job row is created and the body of the try runs;
the `finally` of lines 112-113 discards the name on every path. The store
calls themselves are assumed not to raise, except the representative
`logStartFails` injection documented on `ScanEnv`. -/
def run_scan (es : EngineState) (st : StoreState) (env : ScanEnv)
    (codebase_id : Nat) (name path : String) : RunResult :=
  if name ∈ es.running_scans then
    ⟨es, st, 0, 0, false, 0⟩
  else
    let marked : List String := name :: es.running_scans
    let st1 := Store.create_job st env.jobId codebase_id name env.now
    if env.logStartFails then
      let st2 := Store.update_job st1 env.jobId .failed 0 0 (some env.crashMsg) env.now
      let st3 := Store.add_log st2 env.jobId ("Failed: " ++ env.crashMsg) "error" env.now
      ⟨⟨marked.erase name⟩, st3, 0, 0, false, 0⟩
    else
      let st2 := Store.add_log st1 env.jobId ("Starting scan of " ++ path) "info" env.now
      if ¬ env.ollamaAvailable then
        let st3 := Store.add_log st2 env.jobId "Ollama not available - skipping LLM summaries" "warn" env.now
        let st4 := Store.update_job st3 env.jobId .failed 0 0 (some "Ollama not available") env.now
        ⟨⟨marked.erase name⟩, st4, 0, 0, false, 0⟩
      else
        let st3 := Store.add_log st2 env.jobId
          ("Found " ++ toString env.files.length ++ " source files") "info" env.now
        let body := processFiles env.jobId env.now env.initCache env.files
        let st4 := { st3 with logs := st3.logs ++ body.logs }
        let st5 := Store.update_job st4 env.jobId .completed body.syms body.files none env.now
        let st6 := Store.add_log st5 env.jobId
          ("Completed: " ++ toString body.files ++ " files, " ++ toString body.syms ++ " symbols")
          "info" env.now
        ⟨⟨marked.erase name⟩, st6, body.files, body.syms, true, body.parserCalls⟩

/-- Daemon run command (daemon.py lines 185-194): look the name up among
the registered codebases in listing order; an in-flight name answers
`ok=false`, a known idle name starts a scan task and answers `ok=true`,
an unknown name answers `ok=false`. Only the response is modelled; the
spawned task is an independent `run_scan` invocation. -/
def processRun (codebases : List CodebaseRow) (es : EngineState) (name : String) :
    Bool × String :=
  match codebases.find? (fun cb => cb.name = name) with
  | some _ =>
      if is_scanning es name then (false, "Scan already running for " ++ name)
      else (true, "Started scan for " ++ name)
  | none => (false, "Codebase " ++ name ++ " not found. Use mapper list to see registered codebases.")

/-! ## Single-flight transition system (claim C1)

The cooperative scheduler of the daemon interleaves many in-flight
`run_scan` invocations at their await points. To reason about the store
"at any instant", the scan body is abstracted to its store-visible atomic
steps, each mapped to the daemon.py lines it embeds:

* admission check plus marking (lines 33-36) is one atomic step — no await
  separates the membership test from the insertion (spec section 5);
* Job creation (line 40) inserts a `running` row under a fresh id;
* finalisation (line 54, 105 or 109) moves the row to a terminal status;
* release (line 113, the `finally`) discards the in-flight name.

A thread in phase `marked` has marked its name but not yet created its Job
row; release directly from `marked` embeds the path where `create_job`
itself raised and the `except` handler found no row to update. Store
operations are assumed to succeed, matching the rest of the embedding. -/

/-- Phase of one in-flight `run_scan` invocation. -/
inductive Phase where
  | marked
  | jobCreated
  | finalized
deriving DecidableEq, Repr

/-- SThread is one admitted, not-yet-returned `run_scan` invocation. -/
structure SThread where
  name : String
  jobId : String
  phase : Phase
deriving DecidableEq, Repr

/-- Sys is the instantaneous state the invariant speaks about: the
in-flight name set, the jobs table, and the admitted invocations. -/
structure Sys where
  running : List String
  jobs : List JobRow
  threads : List SThread
deriving DecidableEq, Repr

/-- Job row inserted by `create_job` for a thread (store.py lines 116-130). -/
def mkRunningJob (jobId : String) (codebase_id : Nat) (name : String) (now : Nat) : JobRow :=
  ⟨jobId, codebase_id, name, .running, now, none, 0, 0, none⟩

/-- Step is the interleaving semantics: at any instant, any in-flight
invocation performs its next atomic action, or a new invocation hits
admission. -/
inductive Step : Sys → Sys → Prop where
  | start (s : Sys) (name jobId : String) (h : name ∉ s.running) :
      Step s ⟨name :: s.running, s.jobs, ⟨name, jobId, .marked⟩ :: s.threads⟩
  | reject (s : Sys) (name : String) (h : name ∈ s.running) :
      Step s s
  | createJob (s : Sys) (name jobId : String) (cid now : Nat)
      (ht : (⟨name, jobId, .marked⟩ : SThread) ∈ s.threads)
      (hfresh : ∀ j ∈ s.jobs, j.id ≠ jobId) :
      Step s ⟨s.running, s.jobs ++ [mkRunningJob jobId cid name now],
        s.threads.map (fun t => if t.name = name then { t with phase := .jobCreated } else t)⟩
  | finalize (s : Sys) (name jobId : String) (stat : JobStatus)
      (sy fi : Nat) (err : Option String) (now : Nat)
      (hterm : stat = .completed ∨ stat = .failed)
      (ht : (⟨name, jobId, .jobCreated⟩ : SThread) ∈ s.threads) :
      Step s ⟨s.running,
        s.jobs.map (fun j => if j.id = jobId then
          { j with status := stat, finished_at := some now,
                   symbols_processed := sy, files_processed := fi, error := err }
          else j),
        s.threads.map (fun t => if t.name = name then { t with phase := .finalized } else t)⟩
  | release (s : Sys) (name jobId : String) (ph : Phase)
      (hph : ph = .marked ∨ ph = .finalized)
      (ht : (⟨name, jobId, ph⟩ : SThread) ∈ s.threads) :
      Step s ⟨s.running.erase name, s.jobs, s.threads.filter (fun t => t.name ≠ name)⟩

/-- Number of rows of the jobs table that are `running` for a given
codebase name. -/
def runningJobsFor (jobs : List JobRow) (name : String) : Nat :=
  (jobs.filter (fun j => j.status = .running ∧ j.codebase_name = name)).length

/-- SysInv is the coordination invariant the daemon maintains: every admitted
invocation holds its in-flight marker, at most one invocation exists per
name, job ids are unique, and every `running` row is owned by an admitted
invocation that created it and has not yet finalised it. -/
structure SysInv (s : Sys) : Prop where
  threadMarked : ∀ t ∈ s.threads, t.name ∈ s.running
  uniqueNames : (s.threads.map SThread.name).Nodup
  uniqueIds : (s.jobs.map JobRow.id).Nodup
  owned : ∀ j ∈ s.jobs, j.status = .running →
    ∃ t ∈ s.threads, t.phase = .jobCreated ∧ t.jobId = j.id ∧ t.name = j.codebase_name

/-! ## Counting characterisation of the per-file loop (claim C4)

The following functions restate, independently of the loop embedding,
which files and symbols of a scan count, raise, or log errors. They thread
the cache exactly as the symbol loop does (a repeated symbol id within one
file sees the cache updated by its predecessor). -/

/-- Cache state after the symbol loop of one file body. -/
def loopCache (fname : String) (now : Nat) (c : Cache) : List SymSpec → Cache
  | [] => c
  | s :: rest =>
      let sid := fname ++ "::" ++ s.name
      if HashCache.is_changed c sid s.hash then
        match s.outcome with
        | .ok _ => loopCache fname now (HashCache.update c sid s.hash now) rest
        | .fail _ => loopCache fname now c rest
      else loopCache fname now c rest

/-- Number of symbols of one file body that are changed and summarize
successfully — the increments of `symbols_processed`. -/
def loopOk (fname : String) (now : Nat) (c : Cache) : List SymSpec → Nat
  | [] => 0
  | s :: rest =>
      let sid := fname ++ "::" ++ s.name
      if HashCache.is_changed c sid s.hash then
        match s.outcome with
        | .ok _ => loopOk fname now (HashCache.update c sid s.hash now) rest + 1
        | .fail _ => loopOk fname now c rest
      else loopOk fname now c rest

/-- Whether one file body produces at least one summary fragment, which is
what makes `shadow.write_map` run. -/
def loopAny (fname : String) (now : Nat) (c : Cache) : List SymSpec → Bool
  | [] => false
  | s :: rest =>
      let sid := fname ++ "::" ++ s.name
      if HashCache.is_changed c sid s.hash then
        match s.outcome with
        | .ok _ => true
        | .fail _ => loopAny fname now c rest
      else loopAny fname now c rest

/-- Number of symbols of one file body whose summarizer call fails — each
produces one error-level log line. -/
def loopErrs (fname : String) (now : Nat) (c : Cache) : List SymSpec → Nat
  | [] => 0
  | s :: rest =>
      let sid := fname ++ "::" ++ s.name
      if HashCache.is_changed c sid s.hash then
        match s.outcome with
        | .ok _ => loopErrs fname now (HashCache.update c sid s.hash now) rest
        | .fail _ => loopErrs fname now c rest + 1
      else loopErrs fname now c rest

/-- Whether processing one file raises an exception that reaches the
per-file handler: a read failure, a write failure on a file that produced
summaries, or a cache-flush failure. -/
def fileRaisesB (now : Nat) (c : Cache) (f : FileSpec) : Bool :=
  f.failPoint = .atRead ∨
    (f.failPoint = .atWrite ∧ loopAny f.fname now c f.symbols) ∨
    f.failPoint = .atSave

/-- Whether one file reaches the `files_processed += 1` statement: nothing
raised strictly before it. -/
def fileCountsB (now : Nat) (c : Cache) (f : FileSpec) : Bool :=
  ¬ (f.failPoint = .atRead) ∧
    ¬ (f.failPoint = .atWrite ∧ loopAny f.fname now c f.symbols)

/-- Cache state after one whole file. -/
def cacheAfterFile (now : Nat) (c : Cache) (f : FileSpec) : Cache :=
  if f.failPoint = .atRead then c else loopCache f.fname now c f.symbols

/-- Number of files of a scan that reach the counter increment. -/
def countedFiles (now : Nat) (c : Cache) : List FileSpec → Nat
  | [] => 0
  | f :: rest =>
      (if fileCountsB now c f then 1 else 0) + countedFiles now (cacheAfterFile now c f) rest

/-- Number of files of a scan whose processing raises no exception at all —
the reading of claim C4 as stated. -/
def countNoRaise (now : Nat) (c : Cache) : List FileSpec → Nat
  | [] => 0
  | f :: rest =>
      (if fileRaisesB now c f then 0 else 1) + countNoRaise now (cacheAfterFile now c f) rest

/-- Total successful-summary count of a scan. -/
def specSymbols (now : Nat) (c : Cache) : List FileSpec → Nat
  | [] => 0
  | f :: rest =>
      (if f.failPoint = .atRead then 0 else loopOk f.fname now c f.symbols) +
        specSymbols now (cacheAfterFile now c f) rest

/-- Total number of error-level log lines the file loop of a scan writes:
one per failing summarizer call of each file that reaches its symbol loop,
plus one per file whose processing raises. -/
def specErrs (now : Nat) (c : Cache) : List FileSpec → Nat
  | [] => 0
  | f :: rest =>
      ((if f.failPoint = .atRead then 0 else loopErrs f.fname now c f.symbols) +
        (if fileRaisesB now c f then 1 else 0)) +
        specErrs now (cacheAfterFile now c f) rest

/-- Predicate selecting error-level log rows. -/
def isErrLog (l : LogRow) : Bool := l.level = "error"

theorem processSymbols_spec (jobId fname : String) (now : Nat) :
    ∀ (syms : List SymSpec) (c : Cache),
      (processSymbols jobId fname now c syms).cache = loopCache fname now c syms ∧
      (processSymbols jobId fname now c syms).okCount = loopOk fname now c syms ∧
      (processSymbols jobId fname now c syms).anyOk = loopAny fname now c syms ∧
      ((processSymbols jobId fname now c syms).logs.countP isErrLog) = loopErrs fname now c syms := by
  intro syms
  induction syms with
  | nil => intro c; simp [processSymbols, loopCache, loopOk, loopAny, loopErrs]
  | cons s rest ih =>
      intro c
      simp only [processSymbols, loopCache, loopOk, loopAny, loopErrs]
      by_cases hch : HashCache.is_changed c (fname ++ "::" ++ s.name) s.hash
      · simp only [hch, if_true]
        cases hout : s.outcome with
        | ok t =>
            have h1 := ih (HashCache.update c (fname ++ "::" ++ s.name) s.hash now)
            simp [List.countP_cons, isErrLog, h1.1, h1.2.1, h1.2.2.1, h1.2.2.2]
        | fail m =>
            have h1 := ih c
            simp [List.countP_cons, isErrLog, h1.1, h1.2.1, h1.2.2.1, h1.2.2.2]
      · simp only [hch, if_false]
        exact ih c

theorem processFile_spec (jobId : String) (now : Nat) (c : Cache) (f : FileSpec) :
    (processFile jobId now c f).cache = cacheAfterFile now c f ∧
    (processFile jobId now c f).syms =
      (if f.failPoint = .atRead then 0 else loopOk f.fname now c f.symbols) ∧
    (processFile jobId now c f).files = (if fileCountsB now c f then 1 else 0) ∧
    ((processFile jobId now c f).logs.countP isErrLog) =
      ((if f.failPoint = .atRead then 0 else loopErrs f.fname now c f.symbols) +
        (if fileRaisesB now c f then 1 else 0)) := by
  have hsym := processSymbols_spec jobId f.fname now f.symbols c
  by_cases hr : f.failPoint = .atRead
  · simp [processFile, cacheAfterFile, fileCountsB, fileRaisesB, hr, List.countP_cons, isErrLog]
  · by_cases hw : f.failPoint = .atWrite ∧ loopAny f.fname now c f.symbols
    · have hwp : f.failPoint = .atWrite ∧ (processSymbols jobId f.fname now c f.symbols).anyOk := by
        exact ⟨hw.1, by rw [hsym.2.2.1]; exact hw.2⟩
      simp [processFile, cacheAfterFile, fileCountsB, fileRaisesB, hr, hw, hwp,
        List.countP_append, List.countP_cons, isErrLog, hsym.1, hsym.2.1, hsym.2.2.2]
    · have hwp : ¬ (f.failPoint = .atWrite ∧ (processSymbols jobId f.fname now c f.symbols).anyOk) := by
        rw [hsym.2.2.1]; exact hw
      by_cases hs : f.failPoint = .atSave
      · simp [processFile, cacheAfterFile, fileCountsB, fileRaisesB, hr, hw, hwp, hs,
          List.countP_append, List.countP_cons, isErrLog, hsym.1, hsym.2.1, hsym.2.2.2]
      · simp [processFile, cacheAfterFile, fileCountsB, fileRaisesB, hr, hw, hwp, hs,
          List.countP_append, List.countP_cons, isErrLog, hsym.1, hsym.2.1, hsym.2.2.2]

theorem processFiles_spec (jobId : String) (now : Nat) :
    ∀ (files : List FileSpec) (c : Cache),
      (processFiles jobId now c files).files = countedFiles now c files ∧
      (processFiles jobId now c files).syms = specSymbols now c files ∧
      ((processFiles jobId now c files).logs.countP isErrLog) = specErrs now c files := by
  intro files
  induction files with
  | nil => intro c; simp [processFiles, countedFiles, specSymbols, specErrs]
  | cons f rest ih =>
      intro c
      have hf := processFile_spec jobId now c f
      have hr := ih (cacheAfterFile now c f)
      simp only [processFiles, countedFiles, specSymbols, specErrs, List.countP_append]
      rw [hf.1]
      refine ⟨?_, ?_, ?_⟩
      · rw [hf.2.2.1, hr.1]
      · rw [hf.2.1, hr.2.1]
      · rw [hf.2.2.2, hr.2.2]

theorem thread_name_inj {s : Sys} (h : SysInv s) {t1 t2 : SThread}
    (h1 : t1 ∈ s.threads) (h2 : t2 ∈ s.threads) (hn : t1.name = t2.name) : t1 = t2 :=
  List.inj_on_of_nodup_map h.uniqueNames h1 h2 hn

theorem job_id_inj {s : Sys} (h : SysInv s) {j1 j2 : JobRow}
    (h1 : j1 ∈ s.jobs) (h2 : j2 ∈ s.jobs) (hn : j1.id = j2.id) : j1 = j2 :=
  List.inj_on_of_nodup_map h.uniqueIds h1 h2 hn

theorem length_le_one_of_nodup_const {α : Type} {l : List α}
    (hnd : l.Nodup) (hall : ∀ a ∈ l, ∀ b ∈ l, a = b) : l.length ≤ 1 := by
  match l with
  | [] => simp
  | [a] => simp
  | a :: b :: t =>
      exfalso
      have hab : a = b := hall a (by simp) b (by simp)
      exact (List.nodup_cons.mp hnd).1 (hab ▸ List.mem_cons_self b t)

theorem sysInv_at_most_one {s : Sys} (h : SysInv s) (n : String) :
    runningJobsFor s.jobs n ≤ 1 := by
  unfold runningJobsFor
  apply length_le_one_of_nodup_const
  · exact List.Nodup.filter _ h.uniqueIds.of_map
  · intro a ha b hb
    have hamem := List.mem_filter.mp ha
    have hbmem := List.mem_filter.mp hb
    have hap : a.status = .running ∧ a.codebase_name = n := by
      have := hamem.2; simpa using this
    have hbp : b.status = .running ∧ b.codebase_name = n := by
      have := hbmem.2; simpa using this
    obtain ⟨ta, hta, htap, htai, htan⟩ := h.owned a hamem.1 hap.1
    obtain ⟨tb, htb, htbp, htbi, htbn⟩ := h.owned b hbmem.1 hbp.1
    have hteq : ta = tb :=
      thread_name_inj h hta htb (by rw [htan, htbn, hap.2, hbp.2])
    have hid : a.id = b.id := by rw [← htai, hteq, htbi]
    exact job_id_inj h hamem.1 hbmem.1 hid

theorem step_preserves_sysInv {s s' : Sys} (hs : Step s s') (h : SysInv s) : SysInv s' := by
  cases hs with
  | start name jobId hnr =>
      refine ⟨?_, ?_, ?_, ?_⟩
      · intro t ht
        rcases List.mem_cons.mp ht with rfl | ht0
        · exact List.mem_cons_self _ _
        · exact List.mem_cons_of_mem _ (h.threadMarked t ht0)
      · simp only [List.map_cons]
        refine List.nodup_cons.mpr ⟨?_, h.uniqueNames⟩
        intro hmem
        obtain ⟨t, ht, htn⟩ := List.mem_map.mp hmem
        exact hnr (htn ▸ h.threadMarked t ht)
      · exact h.uniqueIds
      · intro j hj hr
        obtain ⟨t, ht, hp⟩ := h.owned j hj hr
        exact ⟨t, List.mem_cons_of_mem _ ht, hp⟩
  | reject name hnr => exact h
  | createJob name jobId cid now ht hfresh =>
      refine ⟨?_, ?_, ?_, ?_⟩
      · intro t' ht'
        obtain ⟨t, ht0, rfl⟩ := List.mem_map.mp ht'
        have hname : (if t.name = name then { t with phase := Phase.jobCreated } else t).name
            = t.name := by
          by_cases hn : t.name = name <;> simp [hn]
        rw [hname]
        exact h.threadMarked t ht0
      · have hnames : ((s.threads.map (fun t =>
            if t.name = name then { t with phase := Phase.jobCreated } else t)).map SThread.name)
            = s.threads.map SThread.name := by
          rw [List.map_map]
          apply List.map_congr_left
          intro t _
          by_cases hn : t.name = name <;> simp [hn]
        rw [hnames]
        exact h.uniqueNames
      · rw [List.map_append, List.nodup_append]
        refine ⟨h.uniqueIds, by simp [mkRunningJob], ?_⟩
        intro x hx
        obtain ⟨j, hj, rfl⟩ := List.mem_map.mp hx
        simp only [List.map_cons, List.map_nil, List.mem_cons, List.not_mem_nil, or_false,
          mkRunningJob]
        exact hfresh j hj
      · intro j' hj' hr'
        rcases List.mem_append.mp hj' with hj0 | hj1
        · obtain ⟨t, ht0, htp, hti, htn⟩ := h.owned j' hj0 hr'
          have htne : t.name ≠ name := by
            intro heq
            have hte : t = ⟨name, jobId, .marked⟩ := thread_name_inj h ht0 ht heq
            rw [hte] at htp
            simp at htp
          refine ⟨t, ?_, htp, hti, htn⟩
          have hupd : (if t.name = name then { t with phase := Phase.jobCreated } else t) = t := by
            simp [htne]
          exact hupd ▸ List.mem_map_of_mem _ ht0
        · have hj2 : j' = mkRunningJob jobId cid name now := by simpa using hj1
          refine ⟨⟨name, jobId, .jobCreated⟩, ?_, rfl, ?_, ?_⟩
          · have hupd : (if (⟨name, jobId, .marked⟩ : SThread).name = name
                then { (⟨name, jobId, .marked⟩ : SThread) with phase := Phase.jobCreated }
                else (⟨name, jobId, .marked⟩ : SThread)) = ⟨name, jobId, .jobCreated⟩ := by
              simp
            exact hupd ▸ List.mem_map_of_mem _ ht
          · rw [hj2]; rfl
          · rw [hj2]; rfl
  | finalize name jobId stat sy fi err now hterm ht =>
      refine ⟨?_, ?_, ?_, ?_⟩
      · intro t' ht'
        obtain ⟨t, ht0, rfl⟩ := List.mem_map.mp ht'
        have hname : (if t.name = name then { t with phase := Phase.finalized } else t).name
            = t.name := by
          by_cases hn : t.name = name <;> simp [hn]
        rw [hname]
        exact h.threadMarked t ht0
      · have hnames : ((s.threads.map (fun t =>
            if t.name = name then { t with phase := Phase.finalized } else t)).map SThread.name)
            = s.threads.map SThread.name := by
          rw [List.map_map]
          apply List.map_congr_left
          intro t _
          by_cases hn : t.name = name <;> simp [hn]
        rw [hnames]
        exact h.uniqueNames
      · have hids : ((s.jobs.map (fun j => if j.id = jobId then
            { j with status := stat, finished_at := some now,
                     symbols_processed := sy, files_processed := fi, error := err }
            else j)).map JobRow.id) = s.jobs.map JobRow.id := by
          rw [List.map_map]
          apply List.map_congr_left
          intro j _
          by_cases hn : j.id = jobId <;> simp [hn]
        rw [hids]
        exact h.uniqueIds
      · intro j' hj' hr'
        obtain ⟨j, hj0, rfl⟩ := List.mem_map.mp hj'
        by_cases hn : j.id = jobId
        · exfalso
          simp only [hn, if_true, reduceIte] at hr'
          rcases hterm with h1 | h1 <;> rw [h1] at hr' <;> simp at hr'
        · simp only [hn, if_false, reduceIte] at hr' ⊢
          obtain ⟨t, ht0, htp, hti, htn⟩ := h.owned j hj0 hr'
          have htne : t.name ≠ name := by
            intro heq
            have hte : t = ⟨name, jobId, .jobCreated⟩ := thread_name_inj h ht0 ht heq
            rw [hte] at hti
            exact hn hti.symm
          refine ⟨t, ?_, htp, hti, htn⟩
          have hupd : (if t.name = name then { t with phase := Phase.finalized } else t) = t := by
            simp [htne]
          exact hupd ▸ List.mem_map_of_mem _ ht0
  | release name jobId ph hph ht =>
      refine ⟨?_, ?_, ?_, ?_⟩
      · intro t' ht'
        have hm := List.mem_filter.mp ht'
        have htn : t'.name ≠ name := by simpa using hm.2
        exact (List.mem_erase_of_ne htn).mpr (h.threadMarked t' hm.1)
      · exact ((List.filter_sublist _).map SThread.name).nodup h.uniqueNames
      · exact h.uniqueIds
      · intro j hj hr
        obtain ⟨t, ht0, htp, hti, htn⟩ := h.owned j hj hr
        have htne : t.name ≠ name := by
          intro heq
          have hte : t = ⟨name, jobId, ph⟩ := thread_name_inj h ht0 ht heq
          rw [hte] at htp
          rcases hph with h1 | h1 <;> rw [h1] at htp <;> simp at htp
        exact ⟨t, List.mem_filter.mpr ⟨ht0, by simpa using htne⟩, htp, hti, htn⟩

/-! ## Cache lemmas (claims C6 and C7) -/

theorem find?_update (id h : String) (t : Nat) (q : String) :
    ∀ c : Cache, HashCache.find? (HashCache.update c id h t) q =
      if q = id then some ⟨h, t⟩ else HashCache.find? c q := by
  intro c
  induction c with
  | nil =>
      by_cases hq : q = id
      · subst hq; simp [HashCache.update, HashCache.find?]
      · simp [HashCache.update, HashCache.find?, hq, Ne.symm hq]
  | cons kv rest ih =>
      obtain ⟨k, v⟩ := kv
      by_cases hk : k = id
      · subst hk
        by_cases hq : q = k
        · subst hq; simp [HashCache.update, HashCache.find?]
        · simp [HashCache.update, HashCache.find?, hq, Ne.symm hq]
      · by_cases hq : q = k
        · subst hq
          have hqid : ¬ q = id := hk
          simp [HashCache.update, HashCache.find?, hk, hqid]
        · simp [HashCache.update, HashCache.find?, hk, Ne.symm hq, hq, ih]

theorem decodeMembers_encode (c : Cache) :
    HashCache.decodeMembers (c.map (fun kv => (kv.1, HashCache.encodeEntry kv.2))) = some c := by
  induction c with
  | nil => simp [HashCache.decodeMembers]
  | cons kv rest ih =>
      obtain ⟨k, v⟩ := kv
      simp only [List.map_cons, HashCache.decodeMembers]
      rw [show HashCache.decodeEntry (HashCache.encodeEntry v) = some v from rfl]
      simp [ih]

/-- C6: `is_changed` is true exactly on unseen ids or differing hashes, and
after `update(id, h, t)` the id reports unchanged for `h` and changed for
any other hash, independently of the stored timestamp. -/
theorem claim_C6_cache_semantics :
    (∀ (c : Cache) (id h : String), HashCache.find? c id = none →
      HashCache.is_changed c id h = true) ∧
    (∀ (c : Cache) (id h : String) (t : Nat),
      HashCache.is_changed (HashCache.update c id h t) id h = false) ∧
    (∀ (c : Cache) (id h : String) (t : Nat) (h2 : String), h2 ≠ h →
      HashCache.is_changed (HashCache.update c id h t) id h2 = true) ∧
    (∀ (c : Cache) (id h : String) (t1 t2 : Nat) (q x : String),
      HashCache.is_changed (HashCache.update c id h t1) q x =
        HashCache.is_changed (HashCache.update c id h t2) q x) := by
  refine ⟨?_, ?_, ?_, ?_⟩
  · intro c id h habs
    simp [HashCache.is_changed, habs]
  · intro c id h t
    simp [HashCache.is_changed, find?_update]
  · intro c id h t h2 hne
    simp [HashCache.is_changed, find?_update]
    exact fun he => absurd he.symm hne
  · intro c id h t1 t2 q x
    by_cases hq : q = id
    · simp [HashCache.is_changed, find?_update, hq]
    · simp [HashCache.is_changed, find?_update, hq]

/-- Witness for C6 at concrete inputs. -/
theorem claim_C6_witness :
    (HashCache.find? [] "f.py::g" = none → HashCache.is_changed [] "f.py::g" "h1" = true) ∧
    HashCache.is_changed (HashCache.update [] "f.py::g" "h1" 3) "f.py::g" "h1" = false ∧
    ("h2" ≠ "h1" →
      HashCache.is_changed (HashCache.update [] "f.py::g" "h1" 3) "f.py::g" "h2" = true) ∧
    HashCache.is_changed (HashCache.update [] "f.py::g" "h1" 3) "f.py::g" "h1" =
      HashCache.is_changed (HashCache.update [] "f.py::g" "h1" 99) "f.py::g" "h1" := by
  refine ⟨?_, ?_, ?_, ?_⟩
  · exact fun h => claim_C6_cache_semantics.1 [] "f.py::g" "h1" h
  · exact claim_C6_cache_semantics.2.1 [] "f.py::g" "h1" 3
  · exact fun h => claim_C6_cache_semantics.2.2.1 [] "f.py::g" "h1" 3 "h2" h
  · exact claim_C6_cache_semantics.2.2.2 [] "f.py::g" "h1" 3 99 "f.py::g" "h1"

/-- C7: any cache state, saved to the lock file and reloaded through the
JSON layer, yields the same map. -/
theorem claim_C7_roundtrip (c : Cache) :
    HashCache.load (HashCache.save c) = c := by
  simp [HashCache.load, HashCache.save, HashCache.decodeCache, HashCache.encodeCache,
    decodeMembers_encode]

/-! ## Scheduler claims (C8) -/

theorem lookup_setAssoc {α : Type} (k : String) (v : α) :
    ∀ l : List (String × α), List.lookup k (setAssoc l k v) = some v := by
  intro l
  induction l with
  | nil => simp [setAssoc, List.lookup]
  | cons kv rest ih =>
      obtain ⟨k0, v0⟩ := kv
      by_cases hk : k0 = k
      · subst hk; simp [setAssoc, List.lookup]
      · simp only [setAssoc, hk, if_false, reduceIte, List.lookup]
        have : (k == k0) = false := by
          simp [Ne.symm hk]
        rw [this]
        exact ih

/-- C8: the two well-formed interval specs produce interval triggers of
1800 and 7200 seconds respectively, and the malformed spec `every xh`
parses to nothing — `add_job` installs no trigger, leaves the scheduler
untouched and reports failure to its caller. -/
theorem claim_C8_interval_parse :
    parse_interval "every 30m" = some 1800 ∧
    parse_interval "every 2h" = some 7200 ∧
    parse_interval "every xh" = none ∧
    (∀ (sched : SchedState) (id : String),
      (add_job sched id "every 30m").1 = true ∧
      List.lookup id (add_job sched id "every 30m").2.triggers = some (.interval 1800) ∧
      (add_job sched id "every 2h").1 = true ∧
      List.lookup id (add_job sched id "every 2h").2.triggers = some (.interval 7200) ∧
      add_job sched id "every xh" = (false, sched)) := by
  refine ⟨by decide, by decide, by decide, ?_⟩
  intro sched id
  have h30c : is_cron "every 30m" = false := by decide
  have h30p : parse_interval "every 30m" = some 1800 := by decide
  have h2c : is_cron "every 2h" = false := by decide
  have h2p : parse_interval "every 2h" = some 7200 := by decide
  have hxc : is_cron "every xh" = false := by decide
  have hxp : parse_interval "every xh" = none := by decide
  refine ⟨?_, ?_, ?_, ?_, ?_⟩
  · simp [add_job, h30c, h30p]
  · simp [add_job, h30c, h30p, lookup_setAssoc]
  · simp [add_job, h2c, h2p]
  · simp [add_job, h2c, h2p, lookup_setAssoc]
  · simp [add_job, hxc, hxp]

/-! ## Store claims (C9 and C10) -/

/-- C9: re-registering an existing codebase name with a different path and
schedule leaves exactly one row for that name in the listing, carrying the
new path, new schedule and the fresh creation time. -/
theorem claim_C9_upsert_one_row (st : StoreState) (name p sch : String) (now : Nat)
    (r : CodebaseRow) (hr : r ∈ st.codebases) (hrn : r.name = name)
    (hp : p ≠ r.path) (hs : sch ≠ r.schedule) :
    ((Store.get_codebases (Store.add_codebase st name p sch now).1).countP
        (fun c => c.name = name) = 1) ∧
    (∀ c ∈ Store.get_codebases (Store.add_codebase st name p sch now).1,
      c.name = name → c.path = p ∧ c.schedule = sch ∧ c.created_at = now) := by
  constructor
  · simp only [Store.get_codebases]
    rw [List.Perm.countP_eq _ (List.perm_insertionSort _ _)]
    simp only [Store.add_codebase, List.countP_append]
    have h0 : (st.codebases.filter (fun c => c.name ≠ name)).countP
        (fun c => c.name = name) = 0 := by
      rw [List.countP_eq_zero]
      intro a ha
      have := (List.mem_filter.mp ha).2
      simpa using this
    rw [h0]
    simp
  · intro c hc hcn
    simp only [Store.get_codebases] at hc
    have hmem : c ∈ (Store.add_codebase st name p sch now).1.codebases :=
      (List.perm_insertionSort _ _).mem_iff.mp hc
    simp only [Store.add_codebase, List.mem_append] at hmem
    rcases hmem with hfil | hone
    · exfalso
      have := (List.mem_filter.mp hfil).2
      simp [hcn] at this
    · have : c = ⟨st.nextId, name, p, sch, now, none⟩ := by simpa using hone
      rw [this]
      exact ⟨rfl, rfl, rfl⟩

/-- Witness for C9: a store holding one codebase row named cb is
re-registered under a new path and schedule. -/
theorem claim_C9_witness :
    ((Store.get_codebases (Store.add_codebase
        ⟨[⟨1, "cb", "/old", "every 1h", 0, some 9⟩], 2, [], []⟩ "cb" "/new" "every 30m" 5).1).countP
      (fun c => c.name = "cb") = 1) ∧
    (∀ c ∈ Store.get_codebases (Store.add_codebase
        ⟨[⟨1, "cb", "/old", "every 1h", 0, some 9⟩], 2, [], []⟩ "cb" "/new" "every 30m" 5).1,
      c.name = "cb" → c.path = "/new" ∧ c.schedule = "every 30m" ∧ c.created_at = 5) :=
  claim_C9_upsert_one_row ⟨[⟨1, "cb", "/old", "every 1h", 0, some 9⟩], 2, [], []⟩
    "cb" "/new" "every 30m" 5 ⟨1, "cb", "/old", "every 1h", 0, some 9⟩
    (by simp) rfl (by decide) (by decide)

/-- C10: `INSERT OR REPLACE` gives the re-registered codebase a fresh id
(distinct from the replaced row), leaves `last_run` null, and does not
touch the jobs table, whose rows keep referencing the old id. -/
theorem claim_C10_replace_fresh_id (st : StoreState) (name p sch : String) (now : Nat)
    (r : CodebaseRow) (hwf : ∀ c ∈ st.codebases, c.id < st.nextId)
    (hr : r ∈ st.codebases) (hrn : r.name = name) :
    ((Store.add_codebase st name p sch now).2.id = st.nextId) ∧
    ((Store.add_codebase st name p sch now).2.id ≠ r.id) ∧
    ((Store.add_codebase st name p sch now).2.last_run = none) ∧
    ((Store.add_codebase st name p sch now).1.jobs = st.jobs) ∧
    (∀ c ∈ (Store.add_codebase st name p sch now).1.codebases,
      c.name = name → c = (Store.add_codebase st name p sch now).2) := by
  refine ⟨rfl, ?_, rfl, rfl, ?_⟩
  · have := hwf r hr
    simp only [Store.add_codebase]
    omega
  · intro c hc hcn
    simp only [Store.add_codebase, List.mem_append] at hc
    rcases hc with hfil | hone
    · exfalso
      have := (List.mem_filter.mp hfil).2
      simp [hcn] at this
    · simpa using hone

/-- Witness for C10 at a concrete store. -/
theorem claim_C10_witness :
    ((Store.add_codebase ⟨[⟨1, "cb", "/old", "every 1h", 0, some 9⟩], 2,
        [⟨"j1", 1, "cb", .completed, 0, some 1, 2, 3, none⟩], []⟩ "cb" "/new" "every 30m" 5).2.id = 2) ∧
    ((Store.add_codebase ⟨[⟨1, "cb", "/old", "every 1h", 0, some 9⟩], 2,
        [⟨"j1", 1, "cb", .completed, 0, some 1, 2, 3, none⟩], []⟩ "cb" "/new" "every 30m" 5).2.id ≠ 1) ∧
    ((Store.add_codebase ⟨[⟨1, "cb", "/old", "every 1h", 0, some 9⟩], 2,
        [⟨"j1", 1, "cb", .completed, 0, some 1, 2, 3, none⟩], []⟩ "cb" "/new" "every 30m" 5).2.last_run = none) ∧
    ((Store.add_codebase ⟨[⟨1, "cb", "/old", "every 1h", 0, some 9⟩], 2,
        [⟨"j1", 1, "cb", .completed, 0, some 1, 2, 3, none⟩], []⟩ "cb" "/new" "every 30m" 5).1.jobs =
      [⟨"j1", 1, "cb", .completed, 0, some 1, 2, 3, none⟩]) := by
  have h := claim_C10_replace_fresh_id
    ⟨[⟨1, "cb", "/old", "every 1h", 0, some 9⟩], 2,
      [⟨"j1", 1, "cb", .completed, 0, some 1, 2, 3, none⟩], []⟩
    "cb" "/new" "every 30m" 5 ⟨1, "cb", "/old", "every 1h", 0, some 9⟩
    (by intro c hc; simp at hc; rw [hc]; decide) (by simp) rfl
  exact ⟨h.1, by rw [h.1]; decide, h.2.2.1, h.2.2.2.1⟩

/-! ## Coordinator claims (C1 to C5) -/

theorem map_update_id (l : List JobRow) (jid : String) {f : JobRow → JobRow}
    (h : ∀ j ∈ l, j.id ≠ jid) :
    l.map (fun j => if j.id = jid then f j else j) = l := by
  have hall : ∀ j ∈ l, (if j.id = jid then f j else j) = j := by
    intro j hj
    simp [h j hj]
  rw [List.map_congr_left hall]
  simp

theorem map_update_append {f : JobRow → JobRow} (pre : List JobRow) (row : JobRow)
    (jid : String) (h : ∀ j ∈ pre, j.id ≠ jid) (hrow : row.id = jid) :
    (pre ++ [row]).map (fun j => if j.id = jid then f j else j) = pre ++ [f row] := by
  rw [List.map_append, map_update_id pre jid h]
  simp [hrow]

/-- C3: once an invocation passes admission, the in-flight marker is
cleared before it returns on every exit path — successful completion,
handled Summarizer-unavailable failure, and the unhandled-exception path —
leaving the engine exactly as it was. -/
theorem claim_C3_marker_release (es : EngineState) (st : StoreState) (env : ScanEnv)
    (cid : Nat) (name path : String) (hadm : name ∉ es.running_scans) :
    (run_scan es st env cid name path).engine = es ∧
    name ∉ (run_scan es st env cid name path).engine.running_scans := by
  have hrest : (name :: es.running_scans).erase name = es.running_scans :=
    List.erase_cons_head name es.running_scans
  have heng : (run_scan es st env cid name path).engine = es := by
    by_cases hc : env.logStartFails
    · simp [run_scan, hadm, hc, hrest]
    · by_cases ho : env.ollamaAvailable
      · simp [run_scan, hadm, hc, ho, hrest]
      · simp [run_scan, hadm, hc, ho, hrest]
  refine ⟨heng, ?_⟩
  rw [heng]
  exact hadm

/-- Witness for C3 on a concrete admitted invocation. -/
theorem claim_C3_witness :
    (run_scan ⟨["other"]⟩ ⟨[], 1, [], []⟩ ⟨"j1", 4, true, false, "", [], []⟩ 1 "cb" "/p").engine
      = ⟨["other"]⟩ ∧
    "cb" ∉ (run_scan ⟨["other"]⟩ ⟨[], 1, [], []⟩ ⟨"j1", 4, true, false, "", [], []⟩
      1 "cb" "/p").engine.running_scans :=
  claim_C3_marker_release ⟨["other"]⟩ ⟨[], 1, [], []⟩ ⟨"j1", 4, true, false, "", [], []⟩
    1 "cb" "/p" (by decide)

/-- C2: with the Summarizer probe answering false, an admitted `run_scan`
returns `(0, 0)`, logs the warning, marks its Job failed with a non-empty
error, never enumerates files and never invokes the Parser. -/
theorem claim_C2_unavailable_gate (es : EngineState) (st : StoreState) (env : ScanEnv)
    (cid : Nat) (name path : String)
    (hadm : name ∉ es.running_scans)
    (hav : env.ollamaAvailable = false)
    (hcr : env.logStartFails = false)
    (hfresh : ∀ j ∈ st.jobs, j.id ≠ env.jobId) :
    (run_scan es st env cid name path).files = 0 ∧
    (run_scan es st env cid name path).symbols = 0 ∧
    (run_scan es st env cid name path).store.jobs =
      st.jobs ++ [⟨env.jobId, cid, name, .failed, env.now, some env.now, 0, 0,
        some "Ollama not available"⟩] ∧
    ("Ollama not available" ≠ "") ∧
    ((⟨env.jobId, env.now, "Ollama not available - skipping LLM summaries", "warn"⟩ : LogRow)
      ∈ (run_scan es st env cid name path).store.logs) ∧
    (run_scan es st env cid name path).enumerated = false ∧
    (run_scan es st env cid name path).parserCalls = 0 := by
  refine ⟨?_, ?_, ?_, by decide, ?_, ?_, ?_⟩ <;>
    simp [run_scan, hadm, hav, hcr, Store.update_job, Store.add_log, Store.create_job,
      map_update_id st.jobs env.jobId hfresh]

/-- Witness for C2 on a concrete store and environment with the Summarizer
probe answering false. -/
theorem claim_C2_witness :
    (run_scan ⟨[]⟩ ⟨[], 1, [], []⟩ ⟨"j1", 4, false, false, "", [], []⟩ 1 "cb" "/p").files = 0 ∧
    (run_scan ⟨[]⟩ ⟨[], 1, [], []⟩ ⟨"j1", 4, false, false, "", [], []⟩ 1 "cb" "/p").symbols = 0 ∧
    (run_scan ⟨[]⟩ ⟨[], 1, [], []⟩ ⟨"j1", 4, false, false, "", [], []⟩ 1 "cb" "/p").store.jobs =
      [⟨"j1", 1, "cb", .failed, 4, some 4, 0, 0, some "Ollama not available"⟩] ∧
    ("Ollama not available" ≠ "") ∧
    ((⟨"j1", 4, "Ollama not available - skipping LLM summaries", "warn"⟩ : LogRow)
      ∈ (run_scan ⟨[]⟩ ⟨[], 1, [], []⟩ ⟨"j1", 4, false, false, "", [], []⟩ 1 "cb" "/p").store.logs) ∧
    (run_scan ⟨[]⟩ ⟨[], 1, [], []⟩ ⟨"j1", 4, false, false, "", [], []⟩ 1 "cb" "/p").enumerated = false ∧
    (run_scan ⟨[]⟩ ⟨[], 1, [], []⟩ ⟨"j1", 4, false, false, "", [], []⟩ 1 "cb" "/p").parserCalls = 0 :=
  claim_C2_unavailable_gate ⟨[]⟩ ⟨[], 1, [], []⟩ ⟨"j1", 4, false, false, "", [], []⟩ 1 "cb" "/p"
    (by decide) rfl rfl (by simp)

/-- C5: an admitted scan over a directory with zero qualifying source
files, with the Summarizer available, ends with a completed Job carrying
zero counts, and returns `(0, 0)`. -/
theorem claim_C5_empty_scan (es : EngineState) (st : StoreState) (env : ScanEnv)
    (cid : Nat) (name path : String)
    (hadm : name ∉ es.running_scans)
    (hav : env.ollamaAvailable = true)
    (hcr : env.logStartFails = false)
    (hfiles : env.files = [])
    (hfresh : ∀ j ∈ st.jobs, j.id ≠ env.jobId) :
    (run_scan es st env cid name path).files = 0 ∧
    (run_scan es st env cid name path).symbols = 0 ∧
    (run_scan es st env cid name path).store.jobs =
      st.jobs ++ [⟨env.jobId, cid, name, .completed, env.now, some env.now, 0, 0, none⟩] ∧
    (JobStatus.completed ≠ JobStatus.failed) := by
  refine ⟨?_, ?_, ?_, by decide⟩ <;>
    simp [run_scan, hadm, hav, hcr, hfiles, processFiles,
      Store.update_job, Store.add_log, Store.create_job,
      map_update_id st.jobs env.jobId hfresh]

/-- Witness for C5 on a concrete empty directory. -/
theorem claim_C5_witness :
    (run_scan ⟨[]⟩ ⟨[], 1, [], []⟩ ⟨"j1", 4, true, false, "", [], []⟩ 1 "cb" "/p").files = 0 ∧
    (run_scan ⟨[]⟩ ⟨[], 1, [], []⟩ ⟨"j1", 4, true, false, "", [], []⟩ 1 "cb" "/p").symbols = 0 ∧
    (run_scan ⟨[]⟩ ⟨[], 1, [], []⟩ ⟨"j1", 4, true, false, "", [], []⟩ 1 "cb" "/p").store.jobs =
      [⟨"j1", 1, "cb", .completed, 4, some 4, 0, 0, none⟩] ∧
    (JobStatus.completed ≠ JobStatus.failed) :=
  claim_C5_empty_scan ⟨[]⟩ ⟨[], 1, [], []⟩ ⟨"j1", 4, true, false, "", [], []⟩ 1 "cb" "/p"
    (by decide) rfl rfl rfl (by simp)

/-- File of the C4 counterexample: read and parse succeed (the symbol list
is empty), the artifact write is skipped, and `cache.save()` raises after
`files_processed += 1` already ran. -/
def saveFailFile : FileSpec := ⟨"a.py", [], .atSave, "disk full"⟩

/-- Environment of the C4 counterexample: an available Summarizer and one
discovered file whose cache flush fails. -/
def saveFailEnv : ScanEnv := ⟨"j1", 4, true, false, "", [], [saveFailFile]⟩

/-- C4 as stated is false on the code: the claim says the file counter
increments only for files whose processing completed without exception,
i.e. the counter equals the number of exception-free files. In daemon.py
the increment at line 99 precedes `cache.save()` at line 100 inside the
per-file try, so a file whose save raises still counts: here the only
file raises, the exception-free count is 0, yet the counter is 1. -/
theorem claim_C4_counterexample :
    (run_scan ⟨[]⟩ ⟨[], 1, [], []⟩ saveFailEnv 1 "cb" "/p").files = 1 ∧
    fileRaisesB 4 [] saveFailFile = true ∧
    countNoRaise 4 [] [saveFailFile] = 0 ∧
    (run_scan ⟨[]⟩ ⟨[], 1, [], []⟩ saveFailEnv 1 "cb" "/p").files ≠
      countNoRaise 4 [] [saveFailFile] := by
  refine ⟨?_, ?_, ?_, ?_⟩ <;> decide

/-- C4 amended: per-symbol Summarizer failures and per-file exceptions are
logged at error level and never abort the scan — the Job still ends
completed with the accumulated counts; the file counter increments exactly
for the files that reach the increment statement, namely those that raise
neither at read nor at the artifact write; a cache-flush failure after the
increment is logged but the file still counts. The error-log count equals
one per failing summarizer call of each file reaching its symbol loop plus
one per file whose processing raises. -/
theorem claim_C4_amended (es : EngineState) (st : StoreState) (env : ScanEnv)
    (cid : Nat) (name path : String)
    (hadm : name ∉ es.running_scans)
    (hav : env.ollamaAvailable = true)
    (hcr : env.logStartFails = false)
    (hfresh : ∀ j ∈ st.jobs, j.id ≠ env.jobId) :
    (run_scan es st env cid name path).store.jobs =
      st.jobs ++ [⟨env.jobId, cid, name, .completed, env.now, some env.now,
        specSymbols env.now env.initCache env.files,
        countedFiles env.now env.initCache env.files, none⟩] ∧
    (run_scan es st env cid name path).files =
      countedFiles env.now env.initCache env.files ∧
    (run_scan es st env cid name path).symbols =
      specSymbols env.now env.initCache env.files ∧
    (run_scan es st env cid name path).store.logs.countP isErrLog =
      st.logs.countP isErrLog + specErrs env.now env.initCache env.files := by
  have hspec := processFiles_spec env.jobId env.now env.files env.initCache
  refine ⟨?_, ?_, ?_, ?_⟩ <;>
    simp [run_scan, hadm, hav, hcr, Store.update_job, Store.add_log, Store.create_job,
      map_update_id st.jobs env.jobId hfresh, hspec.1, hspec.2.1, hspec.2.2,
      List.countP_append, isErrLog]

/-- Environment of the C4 witness: a file with one succeeding and one
failing symbol, an unreadable file, and a file whose cache flush fails. -/
def mixedEnv : ScanEnv :=
  ⟨"j9", 4, true, false, "",
    [],
    [⟨"a.py", [⟨"g", "h1", .ok "sum"⟩, ⟨"b", "h2", .fail "boom"⟩], .noFail, ""⟩,
     ⟨"b.py", [], .atRead, "unreadable"⟩,
     ⟨"c.py", [], .atSave, "disk full"⟩]⟩

/-- Witness for the amended C4 on `mixedEnv`: the scan completes with
files counter 2 (the unreadable file does not count, the save-failing one
does), symbol counter 1, and three error-level log lines. -/
theorem claim_C4_witness :
    (run_scan ⟨[]⟩ ⟨[], 1, [], []⟩ mixedEnv 1 "cb" "/p").store.jobs =
      [⟨"j9", 1, "cb", .completed, 4, some 4, 1, 2, none⟩] ∧
    (run_scan ⟨[]⟩ ⟨[], 1, [], []⟩ mixedEnv 1 "cb" "/p").files = 2 ∧
    (run_scan ⟨[]⟩ ⟨[], 1, [], []⟩ mixedEnv 1 "cb" "/p").symbols = 1 ∧
    (run_scan ⟨[]⟩ ⟨[], 1, [], []⟩ mixedEnv 1 "cb" "/p").store.logs.countP isErrLog = 3 := by
  have h := claim_C4_amended ⟨[]⟩ ⟨[], 1, [], []⟩ mixedEnv 1 "cb" "/p" (by decide) rfl rfl (by simp)
  refine ⟨?_, ?_, ?_, ?_⟩
  · rw [h.1]; decide
  · rw [h.2.1]; decide
  · rw [h.2.2.1]; decide
  · rw [h.2.2.2]; decide

/-- C1: a `run_scan` for a name already in flight returns `(0, 0)` at once
and changes neither the engine nor the store (so no Job row appears); the
run control command answers `ok=false` for an in-flight name it knows; and
every interleaved atomic step of the coordination system preserves the
ownership invariant, which bounds the `running` Job rows per codebase name
by one at every instant. -/
theorem claim_C1_single_flight :
    (∀ (es : EngineState) (st : StoreState) (env : ScanEnv) (cid : Nat) (name path : String),
      name ∈ es.running_scans →
      run_scan es st env cid name path = ⟨es, st, 0, 0, false, 0⟩) ∧
    (∀ (cbs : List CodebaseRow) (es : EngineState) (name : String),
      (cbs.find? (fun cb => cb.name = name)).isSome → is_scanning es name = true →
      (processRun cbs es name).1 = false) ∧
    (∀ s s' : Sys, Step s s' → SysInv s → SysInv s') ∧
    (∀ s : Sys, SysInv s → ∀ n : String, runningJobsFor s.jobs n ≤ 1) := by
  refine ⟨?_, ?_, ?_, ?_⟩
  · intro es st env cid name path h
    simp [run_scan, h]
  · intro cbs es name hfind hsc
    obtain ⟨cb, hcb⟩ := Option.isSome_iff_exists.mp hfind
    simp [processRun, hcb, hsc]
  · intro s s' hst hin
    exact step_preserves_sysInv hst hin
  · intro s hin n
    exact sysInv_at_most_one hin n

/-- Witness for C1: a rejected second scan on a concrete engine, a
rejected run command, the invariant after an admission step from the
empty system, and the bound on a concrete jobs table. -/
theorem claim_C1_witness :
    (run_scan ⟨["cb"]⟩ ⟨[], 1, [], []⟩ ⟨"j1", 4, true, false, "", [], []⟩ 1 "cb" "/p"
      = ⟨⟨["cb"]⟩, ⟨[], 1, [], []⟩, 0, 0, false, 0⟩) ∧
    ((processRun [⟨1, "cb", "/p", "every 1h", 0, none⟩] ⟨["cb"]⟩ "cb").1 = false) ∧
    SysInv ⟨["cb"], [], [⟨"cb", "j1", .marked⟩]⟩ ∧
    runningJobsFor [⟨"j1", 1, "cb", .running, 4, none, 0, 0, none⟩] "cb" ≤ 1 := by
  refine ⟨?_, ?_, ?_, ?_⟩
  · exact claim_C1_single_flight.1 _ _ _ _ _ _ (by decide)
  · exact claim_C1_single_flight.2.1 _ _ _ (by decide) (by decide)
  · exact claim_C1_single_flight.2.2.1 ⟨[], [], []⟩ _
      (Step.start ⟨[], [], []⟩ "cb" "j1" (by decide))
      (by refine ⟨?_, ?_, ?_, ?_⟩ <;> simp)
  · apply claim_C1_single_flight.2.2.2 ⟨["cb"], [⟨"j1", 1, "cb", .running, 4, none, 0, 0, none⟩],
      [⟨"cb", "j1", .jobCreated⟩]⟩
    refine ⟨by simp, by simp, by simp, ?_⟩
    intro j hj hr
    simp only [List.mem_singleton] at hj
    subst hj
    exact ⟨⟨"cb", "j1", .jobCreated⟩, by simp, rfl, rfl, rfl⟩
